import Mathlib

/-!
Shallow embedding of `src/ZephyrTask/tasks.py` (the task store, validator,
operations and notification evaluation) together with proofs about it.

Modelling conventions:
* The JSON backing file collapses to its parsed contents: a `List Task`.
  Every operation becomes a pure function `... → List Task →
  Except PyError Task × List Task`, returning the Python result (or the
  raised `ValueError`, tagged by the spec's error-kind names) and the file
  state after the call (unchanged when no `_save_tasks` ran).
* Python `datetime.datetime` becomes the `DateTime` structure below;
  `datetime.fromisoformat` / `isoformat` are modelled for naive timestamps
  in the `YYYY-MM-DD[<sep>HH:MM[:SS[.f{1,6}]]]` shape.  Time differences are
  computed exactly over `Int` microseconds; the Python float comparison
  `(t - now).total_seconds() / 3600 <= deadline` is rendered as the
  equivalent exact inequality `diffMicros ≤ deadline * 3600000000`.
* Python `str.strip()` becomes `pyStrip` below; `int` becomes `Int`.
-/

namespace ZephyrTask

/-- Model of a naive Python `datetime.datetime` value. -/
structure DateTime where
  year : Nat
  month : Nat
  day : Nat
  hour : Nat
  minute : Nat
  second : Nat
  microsecond : Nat
deriving Repr, DecidableEq

/-- Gregorian leap-year test. -/
def isLeap (y : Nat) : Bool :=
  y % 4 = 0 && (y % 100 != 0 || y % 400 = 0)

/-- Number of days in month `m` of year `y`. -/
def daysInMonth (y m : Nat) : Nat :=
  if m = 2 then (if isLeap y then 29 else 28)
  else if m = 4 || m = 6 || m = 9 || m = 11 then 30
  else 31

/-- Days in the months strictly before month `m` of year `y`. -/
def daysBeforeMonth (y m : Nat) : Nat :=
  (List.range (m - 1)).foldl (fun acc i => acc + daysInMonth y (i + 1)) 0

/-- Proleptic-Gregorian ordinal day number of a date (day count from year 1). -/
def ordinalDay (y m d : Nat) : Nat :=
  365 * (y - 1) + (y - 1) / 4 - (y - 1) / 100 + (y - 1) / 400
    + daysBeforeMonth y m + (d - 1)

/-- Exact timestamp of a `DateTime` in microseconds (for differences). -/
def toMicros (t : DateTime) : Int :=
  ((((ordinalDay t.year t.month t.day * 24 + t.hour) * 60 + t.minute) * 60
      + t.second : Nat) * 1000000 + t.microsecond : Nat)

/-- Range validation performed by the `datetime` constructor. -/
def mkDateTime (y mo d h mi s us : Nat) : Option DateTime :=
  if 1 ≤ y && 1 ≤ mo && mo ≤ 12 && 1 ≤ d && d ≤ daysInMonth y mo
      && h ≤ 23 && mi ≤ 59 && s ≤ 59 && us ≤ 999999 then
    some ⟨y, mo, d, h, mi, s, us⟩
  else none

/-- Value of a decimal digit character, if it is one. -/
def digitVal (c : Char) : Option Nat :=
  if c.isDigit then some (c.toNat - 48) else none

/-- Parse exactly two decimal digits. -/
def parse2 : List Char → Option (Nat × List Char)
  | a :: b :: rest => do
    let x ← digitVal a
    let y ← digitVal b
    pure (10 * x + y, rest)
  | _ => none

/-- Parse exactly four decimal digits. -/
def parse4 : List Char → Option (Nat × List Char)
  | a :: b :: c :: d :: rest => do
    let x ← digitVal a
    let y ← digitVal b
    let z ← digitVal c
    let w ← digitVal d
    pure (1000 * x + 100 * y + 10 * z + w, rest)
  | _ => none

/-- Consume an expected literal character. -/
def expectChar (c : Char) : List Char → Option (List Char)
  | x :: rest => if x = c then some rest else none
  | [] => none

/-- Parse 1 to 6 fractional-second digits, scaled to microseconds. -/
def parseFrac : List Char → Option (Nat × List Char)
  | cs =>
    let digits := cs.takeWhile Char.isDigit
    let rest := cs.dropWhile Char.isDigit
    if digits.length = 0 || 6 < digits.length then none
    else
      let v := digits.foldl (fun acc c => 10 * acc + (c.toNat - 48)) 0
      some (v * 10 ^ (6 - digits.length), rest)

/-- Optional `:SS[.frac]` part of an ISO time. -/
def parseSecondFrac : List Char → Option (Nat × Nat × List Char)
  | [] => some (0, 0, [])
  | ':' :: cs => do
    let (s, cs) ← parse2 cs
    match cs with
    | '.' :: cs' => do
      let (us, cs'') ← parseFrac cs'
      pure (s, us, cs'')
    | cs' => pure (s, 0, cs')
  | _ => none

/-- Model of `datetime.datetime.fromisoformat` on a character list:
accepts `YYYY-MM-DD`, optionally followed by a one-character separator and
`HH:MM[:SS[.f{1,6}]]`, with range validation.  Timezone-aware forms are out
of the model (the repository only uses naive timestamps). -/
def fromisoChars (cs : List Char) : Option DateTime := do
  let (y, cs) ← parse4 cs
  let cs ← expectChar '-' cs
  let (mo, cs) ← parse2 cs
  let cs ← expectChar '-' cs
  let (d, cs) ← parse2 cs
  match cs with
  | [] => mkDateTime y mo d 0 0 0 0
  | _ :: cs => do
    let (h, cs) ← parse2 cs
    let cs ← expectChar ':' cs
    let (mi, cs) ← parse2 cs
    let (s, us, cs) ← parseSecondFrac cs
    match cs with
    | [] => mkDateTime y mo d h mi s us
    | _ => none

/-- Model of `datetime.datetime.fromisoformat`. -/
def fromisoformat (s : String) : Option DateTime :=
  fromisoChars s.data

/-- Decimal rendering of `n` left-padded with zeros to width `w`. -/
def padNum (w n : Nat) : String :=
  let s := toString n
  String.mk (List.replicate (w - s.length) '0') ++ s

/-- Model of `datetime.datetime.isoformat`: `YYYY-MM-DDTHH:MM:SS`, with
`.ffffff` appended when the microsecond field is nonzero. -/
def isoformat (t : DateTime) : String :=
  padNum 4 t.year ++ "-" ++ padNum 2 t.month ++ "-" ++ padNum 2 t.day ++ "T"
    ++ padNum 2 t.hour ++ ":" ++ padNum 2 t.minute ++ ":" ++ padNum 2 t.second
    ++ (if t.microsecond ≠ 0 then "." ++ padNum 6 t.microsecond else "")

/-- A stored task record (`{time, event, value, completed}`). -/
structure Task where
  time : String
  event : String
  value : Int
  completed : Bool
deriving Repr, DecidableEq

/-- The spec's domain-error kinds for the `ValueError`s raised in
`tasks.py` (§7 of the spec names them; the code raises `ValueError` with a
message of the corresponding family). -/
inductive PyError where
  | invalidTime (input : String)
  | invalidEvent
  | duplicateTask (time event : String)
  | notFound (time event : String)
  | invalidSortKey
deriving Repr, DecidableEq

/-- The `time` argument of the operations: an ISO string or a `datetime`
object (`Union[str, datetime.datetime]`). -/
inductive TimeValue where
  | str (s : String)
  | dt (d : DateTime)
deriving Repr, DecidableEq

/-- Decidable equality for `Except` results, used to evaluate concrete
operation outcomes. -/
instance {e a : Type} [DecidableEq e] [DecidableEq a] : DecidableEq (Except e a) := fun x y =>
  match x, y with
  | .ok u, .ok v => decidable_of_iff (u = v) (by simp)
  | .error u, .error v => decidable_of_iff (u = v) (by simp)
  | .ok _, .error _ => isFalse (by simp)
  | .error _, .ok _ => isFalse (by simp)

/-- Model of Python `str.strip()`: drop leading and trailing whitespace. -/
def pyStrip (s : String) : String :=
  String.mk ((s.data.dropWhile Char.isWhitespace).reverse.dropWhile Char.isWhitespace).reverse

/-- The canonical text form of a `time` argument as computed in
`_validate_task` (string kept verbatim) and `remove_task` (no parse). -/
def normTime : TimeValue → String
  | .str s => s
  | .dt d => isoformat d

/-- Model of `_validate_task`: validate the time (a string must parse as
ISO, a `datetime` is converted with `isoformat`), require a non-empty
trimmed event, and build the record with `completed = False`.  The
`value` argument is `Int`-typed, so the Python `isinstance(value, int)`
check (`InvalidValue`) is enforced by the type. -/
def validateTask (time : TimeValue) (event : String) (value : Int) :
    Except PyError Task :=
  match time with
  | .str s =>
    match fromisoformat s with
    | none => .error (.invalidTime s)
    | some _ =>
      if pyStrip event = "" then .error .invalidEvent
      else .ok { time := s, event := pyStrip event, value := value, completed := false }
  | .dt d =>
    if pyStrip event = "" then .error .invalidEvent
    else .ok { time := isoformat d, event := pyStrip event, value := value, completed := false }

/-- The identity comparison `task["time"] == time_str and task["event"] ==
event_str` used by every scan loop. -/
def matchesId (timeStr eventStr : String) (t : Task) : Bool :=
  t.time = timeStr && t.event = eventStr

/-- Model of `add_task`: validate, reject a duplicate `(time, event)`
identity, otherwise append and save.  The second component is the stored
collection after the call. -/
def addTask (time : TimeValue) (event : String) (value : Int)
    (tasks : List Task) : Except PyError Task × List Task :=
  match validateTask time event value with
  | .error e => (.error e, tasks)
  | .ok newTask =>
    if tasks.any (matchesId newTask.time newTask.event) then
      (.error (.duplicateTask newTask.time newTask.event), tasks)
    else
      (.ok newTask, tasks ++ [newTask])

/-- The `for i, task in enumerate(tasks)` loop of `update_task`: replace
the `value` of the first record matching `(timeStr, eventStr)`, keeping
the records before it. -/
def updateList (timeStr eventStr : String) (value : Int) :
    List Task → Option (Task × List Task)
  | [] => none
  | t :: rest =>
    if matchesId timeStr eventStr t then
      some ({ t with value := value }, { t with value := value } :: rest)
    else
      (updateList timeStr eventStr value rest).map (fun p => (p.1, t :: p.2))

/-- Model of `update_task`. -/
def updateTask (time : TimeValue) (event : String) (value : Int)
    (tasks : List Task) : Except PyError Task × List Task :=
  match validateTask time event value with
  | .error e => (.error e, tasks)
  | .ok v =>
    match updateList v.time v.event value tasks with
    | some (u, tasks') => (.ok u, tasks')
    | none => (.error (.notFound v.time v.event), tasks)

/-- The scan loop of `remove_task`: delete the first record matching
`(timeStr, event)`; the event is compared verbatim, untrimmed. -/
def removeList (timeStr event : String) :
    List Task → Option (Task × List Task)
  | [] => none
  | t :: rest =>
    if matchesId timeStr event t then some (t, rest)
    else
      (removeList timeStr event rest).map (fun p => (p.1, t :: p.2))

/-- Model of `remove_task`: the time is normalized (`datetime` →
`isoformat`, string passed through with no validation), then the first
match is deleted. -/
def removeTask (time : TimeValue) (event : String)
    (tasks : List Task) : Except PyError Task × List Task :=
  let timeStr := normTime time
  match removeList timeStr event tasks with
  | some (r, tasks') => (.ok r, tasks')
  | none => (.error (.notFound timeStr event), tasks)

/-- The scan loop of `complete`: mark the first record whose `event`
matches verbatim. -/
def completeList (event : String) : List Task → Option (Task × List Task)
  | [] => none
  | t :: rest =>
    if t.event = event then
      some ({ t with completed := true }, { t with completed := true } :: rest)
    else
      (completeList event rest).map (fun p => (p.1, t :: p.2))

/-- Model of `complete`. -/
def completeTask (event : String) (tasks : List Task) :
    Except PyError Task × List Task :=
  match completeList event tasks with
  | some (u, tasks') => (.ok u, tasks')
  | none => (.error (.notFound "" event), tasks)

/-- Model of `list_tasks`: a stable sort of the loaded collection,
ascending by the time string for `"time"`, descending by value for
`"value"` (Python `sort(reverse=True)` keeps ties in original order, which
is exactly a stable sort under the flipped `≥` comparison); any other key
raises.  `list_tasks` never calls `_save_tasks`, so the stored collection
is not touched: the function has no state output. -/
def listTasks (orderBy : String) (tasks : List Task) :
    Except PyError (List Task) :=
  if orderBy = "time" then
    .ok (tasks.mergeSort (fun a b => a.time ≤ b.time))
  else if orderBy = "value" then
    .ok (tasks.mergeSort (fun a b => b.value ≤ a.value))
  else .error .invalidSortKey

/-- The inclusion test of the `reminder` loop for one task, after its time
has parsed to `d`: `not task.get("completed", False)` and
`(task_time - current_time).total_seconds() / 3600 <= deadline`, the float
comparison rendered exactly over `Int` microseconds. -/
def dueSoon (now : DateTime) (deadline : Int) (t : Task) (d : DateTime) : Bool :=
  !t.completed && (toMicros d - toMicros now ≤ deadline * 3600000000)

/-- The filter loop of `reminder`: every task's time string is parsed
(`datetime.fromisoformat(task["time"])` runs before the `completed` check,
so an unparseable time raises even on a completed task), and the tasks
passing `dueSoon` are kept in order. -/
def reminderFilter (now : DateTime) (deadline : Int) :
    List Task → Except PyError (List Task)
  | [] => .ok []
  | t :: rest =>
    match fromisoformat t.time with
    | none => .error (.invalidTime t.time)
    | some d =>
      match reminderFilter now deadline rest with
      | .error e => .error e
      | .ok kept => .ok (if dueSoon now deadline t d then t :: kept else kept)

/-- Sort key for ranking the upcoming tasks by parsed time. -/
def parsedMicros (t : Task) : Int :=
  match fromisoformat t.time with
  | some d => toMicros d
  | none => 0

/-- Model of `reminder` up to the notifier boundary: filter the upcoming
incomplete tasks; if none remain, return with no payload (`none` — the
email transport is never invoked); otherwise sort ascending by value when
`rank = "value"`, else ascending by parsed time, and hand the sorted list
to the notifier (`some` payload). -/
def reminder (now : DateTime) (deadline : Int) (rank : String)
    (tasks : List Task) : Except PyError (Option (List Task)) :=
  match reminderFilter now deadline tasks with
  | .error e => .error e
  | .ok upcoming =>
    if upcoming = [] then .ok none
    else if rank = "value" then
      .ok (some (upcoming.mergeSort (fun a b => a.value ≤ b.value)))
    else
      .ok (some (upcoming.mergeSort (fun a b => parsedMicros a ≤ parsedMicros b)))

/-- The inclusion test of `reminder` as a single boolean on a task whose
time may or may not parse: tasks with unparseable times never reach this
test (the loop raises first), so the `none` arm is arbitrary. -/
def dueSelect (now : DateTime) (deadline : Int) (t : Task) : Bool :=
  match fromisoformat t.time with
  | some d => dueSoon now deadline t d
  | none => false

/-- The payload `reward` hands to the notifier when the threshold is met:
the email carries the total, the threshold, and (when the caller's include
flag is set and the list is non-empty) the completed tasks. -/
structure RewardPayload where
  total : Int
  threshold : Int
  completedTasks : List Task
deriving Repr, DecidableEq

/-- Model of `reward` up to the notifier boundary: sum `value` over the
tasks with `completed = True`; strictly below the threshold, return with
no payload (`False`, transport never invoked); otherwise build the payload
with exactly that total. -/
def reward (thresholdValue : Int) (includeCompletedTasks : Bool)
    (tasks : List Task) : Option RewardPayload :=
  let completedTasks := tasks.filter (fun t => t.completed)
  let totalValue := (completedTasks.map Task.value).sum
  if totalValue < thresholdValue then none
  else
    some { total := totalValue, threshold := thresholdValue,
           completedTasks :=
             if includeCompletedTasks && !completedTasks.isEmpty
             then completedTasks else [] }

/-- The observable states of the backing file as `_get_tasks` branches on
them: absent, present but not parseable as JSON (`json.JSONDecodeError`),
or parsed to a task list. -/
inductive Backing where
  | missing
  | corrupt
  | parsed (tasks : List Task)
deriving Repr, DecidableEq

/-- Model of `_get_tasks` (`Store.load`): a total function — no error is
ever surfaced; missing and unparseable files degrade to the empty list,
and a parsed file yields its records in storage order. -/
def getTasks : Backing → List Task
  | .missing => []
  | .corrupt => []
  | .parsed tasks => tasks

/-- The identity of a task: the `(time, event)` pair. -/
def taskId (t : Task) : String × String :=
  (t.time, t.event)

/-- The spec's identity invariant: all `(time, event)` pairs in the
collection are pairwise distinct. -/
def UniqueIds (tasks : List Task) : Prop :=
  (tasks.map taskId).Nodup

/-! ## Lemmas about the validator -/

/-- A successful validation yields exactly the normalized record: the
canonical time text, the stripped event, the given value, `completed`
false (and the stripped event is non-empty). -/
theorem validateTask_ok (time : TimeValue) (event : String) (value : Int) (t : Task)
    (h : validateTask time event value = .ok t) :
    t = { time := normTime time, event := pyStrip event,
          value := value, completed := false } ∧ pyStrip event ≠ "" := by
  cases time with
  | str s =>
    cases hf : fromisoformat s with
    | none => simp [validateTask, hf] at h
    | some d =>
      by_cases he : pyStrip event = ""
      · simp [validateTask, hf, he] at h
      · simp only [validateTask, hf, if_neg he] at h
        cases h
        exact ⟨rfl, he⟩
  | dt d =>
    by_cases he : pyStrip event = ""
    · simp [validateTask, he] at h
    · simp only [validateTask, if_neg he] at h
      cases h
      exact ⟨rfl, he⟩

/-- The time/event normalization of a successful validation does not
depend on the `value` argument. -/
theorem validateTask_value_irrel (time : TimeValue) (event : String)
    (value value2 : Int) (t : Task) (h : validateTask time event value = .ok t) :
    validateTask time event value2 = .ok { t with value := value2 } := by
  cases time with
  | str s =>
    cases hf : fromisoformat s with
    | none => simp [validateTask, hf] at h
    | some d =>
      by_cases he : pyStrip event = ""
      · simp [validateTask, hf, he] at h
      · simp only [validateTask, hf, if_neg he] at h ⊢
        cases h
        rfl
  | dt d =>
    by_cases he : pyStrip event = ""
    · simp [validateTask, he] at h
    · simp only [validateTask, if_neg he] at h ⊢
      cases h
      rfl

/-! ## Lemmas about the scan loops -/

/-- The identity comparison decodes to the conjunction of field
equalities. -/
theorem matchesId_iff {ts es : String} {t : Task} :
    matchesId ts es t = true ↔ t.time = ts ∧ t.event = es := by
  simp [matchesId]

/-- `update_task`'s loop finds nothing iff no record matches. -/
theorem updateList_eq_none (ts es : String) (v : Int) :
    ∀ l : List Task, updateList ts es v l = none ↔
      ∀ t ∈ l, ¬(t.time = ts ∧ t.event = es)
  | [] => by simp [updateList]
  | t :: rest => by
    by_cases h : matchesId ts es t
    · rw [matchesId_iff] at h
      simp only [updateList, if_pos (matchesId_iff.mpr h)]
      simp [h]
    · rw [matchesId_iff] at h
      simp only [updateList, if_neg (fun hb => h (matchesId_iff.mp hb))]
      simp [Option.map_eq_none', updateList_eq_none ts es v rest, h]
      exact fun _ ht he => h ⟨ht, he⟩

/-- Explicit form of a successful `update_task` scan: the first matching
record has its `value` replaced in place. -/
theorem updateList_split (ts es : String) (v : Int) :
    ∀ (pre : List Task) (t : Task) (post : List Task),
      (∀ x ∈ pre, ¬(x.time = ts ∧ x.event = es)) →
      t.time = ts → t.event = es →
      updateList ts es v (pre ++ t :: post) =
        some ({ t with value := v }, pre ++ { t with value := v } :: post)
  | [], t, post, _, h1, h2 => by
    simp only [List.nil_append, updateList, if_pos (matchesId_iff.mpr ⟨h1, h2⟩)]
  | p :: pre, t, post, hpre, h1, h2 => by
    have hp : ¬ matchesId ts es p = true :=
      fun hb => hpre p (by simp) (matchesId_iff.mp hb)
    have hrec := updateList_split ts es v pre t post
      (fun x hx => hpre x (by simp [hx])) h1 h2
    simp only [List.cons_append, updateList, if_neg hp, List.append_eq, hrec,
      Option.map_some']

/-- `update_task`'s loop never changes any `(time, event)` identity. -/
theorem updateList_map_taskId (ts es : String) (v : Int) :
    ∀ (l : List Task) (u : Task) (l₂ : List Task),
      updateList ts es v l = some (u, l₂) → l₂.map taskId = l.map taskId
  | [], u, l₂ => by simp [updateList]
  | t :: rest, u, l₂ => by
    by_cases h : matchesId ts es t
    · simp only [updateList, if_pos h, Option.some.injEq, Prod.mk.injEq, and_imp]
      intro _ h2
      simp [← h2, taskId]
    · simp only [updateList, if_neg h, Option.map_eq_some']
      rintro ⟨⟨u2, l3⟩, hrec, heq⟩
      have IH := updateList_map_taskId ts es v rest u2 l3 hrec
      obtain ⟨-, rfl⟩ : u2 = u ∧ t :: l3 = l₂ := by
        simpa [Prod.ext_iff] using heq
      simp [IH]

/-- `remove_task`'s loop finds nothing iff no record matches. -/
theorem removeList_eq_none (ts es : String) :
    ∀ l : List Task, removeList ts es l = none ↔
      ∀ t ∈ l, ¬(t.time = ts ∧ t.event = es)
  | [] => by simp [removeList]
  | t :: rest => by
    by_cases h : matchesId ts es t
    · rw [matchesId_iff] at h
      simp only [removeList, if_pos (matchesId_iff.mpr h)]
      simp [h]
    · rw [matchesId_iff] at h
      simp only [removeList, if_neg (fun hb => h (matchesId_iff.mp hb))]
      simp [Option.map_eq_none', removeList_eq_none ts es rest, h]
      exact fun _ ht he => h ⟨ht, he⟩

/-- Explicit form of a successful `remove_task` scan: the first matching
record is deleted, the rest keep their order. -/
theorem removeList_split (ts es : String) :
    ∀ (pre : List Task) (t : Task) (post : List Task),
      (∀ x ∈ pre, ¬(x.time = ts ∧ x.event = es)) →
      t.time = ts → t.event = es →
      removeList ts es (pre ++ t :: post) = some (t, pre ++ post)
  | [], t, post, _, h1, h2 => by
    simp only [List.nil_append, removeList, if_pos (matchesId_iff.mpr ⟨h1, h2⟩)]
  | p :: pre, t, post, hpre, h1, h2 => by
    have hp : ¬ matchesId ts es p = true :=
      fun hb => hpre p (by simp) (matchesId_iff.mp hb)
    have hrec := removeList_split ts es pre t post
      (fun x hx => hpre x (by simp [hx])) h1 h2
    simp only [List.cons_append, removeList, if_neg hp, List.append_eq, hrec,
      Option.map_some']

/-- The list left behind by `remove_task`'s loop is a sublist of the
original. -/
theorem removeList_sublist (ts es : String) :
    ∀ (l : List Task) (r : Task) (l₂ : List Task),
      removeList ts es l = some (r, l₂) → l₂.Sublist l
  | [], r, l₂ => by simp [removeList]
  | t :: rest, r, l₂ => by
    by_cases h : matchesId ts es t
    · simp only [removeList, if_pos h, Option.some.injEq, Prod.mk.injEq, and_imp]
      intro _ h2
      exact h2 ▸ List.sublist_cons_self t rest
    · simp only [removeList, if_neg h, Option.map_eq_some']
      rintro ⟨⟨r2, l3⟩, hrec, heq⟩
      have IH := removeList_sublist ts es rest r2 l3 hrec
      obtain ⟨-, rfl⟩ : r2 = r ∧ t :: l3 = l₂ := by
        simpa [Prod.ext_iff] using heq
      exact List.Sublist.cons₂ t IH

/-- `complete`'s loop finds nothing iff no record's event matches. -/
theorem completeList_eq_none (es : String) :
    ∀ l : List Task, completeList es l = none ↔ ∀ t ∈ l, t.event ≠ es
  | [] => by simp [completeList]
  | t :: rest => by
    by_cases h : t.event = es
    · simp only [completeList, if_pos h]
      simp [h]
    · simp only [completeList, if_neg h]
      simp [Option.map_eq_none', completeList_eq_none es rest, h]

/-- Explicit form of a successful `complete` scan: the first record whose
event matches is flagged in place. -/
theorem completeList_split (es : String) :
    ∀ (pre : List Task) (t : Task) (post : List Task),
      (∀ x ∈ pre, x.event ≠ es) → t.event = es →
      completeList es (pre ++ t :: post) =
        some ({ t with completed := true }, pre ++ { t with completed := true } :: post)
  | [], t, post, _, h1 => by
    simp only [List.nil_append, completeList, if_pos h1]
  | p :: pre, t, post, hpre, h1 => by
    have hp : ¬ p.event = es := hpre p (by simp)
    have hrec := completeList_split es pre t post
      (fun x hx => hpre x (by simp [hx])) h1
    simp only [List.cons_append, completeList, if_neg hp, List.append_eq, hrec,
      Option.map_some']

/-- `complete`'s loop never changes any `(time, event)` identity. -/
theorem completeList_map_taskId (es : String) :
    ∀ (l : List Task) (u : Task) (l₂ : List Task),
      completeList es l = some (u, l₂) → l₂.map taskId = l.map taskId
  | [], u, l₂ => by simp [completeList]
  | t :: rest, u, l₂ => by
    by_cases h : t.event = es
    · simp only [completeList, if_pos h, Option.some.injEq, Prod.mk.injEq, and_imp]
      intro _ h2
      simp [← h2, taskId]
    · simp only [completeList, if_neg h, Option.map_eq_some']
      rintro ⟨⟨u2, l3⟩, hrec, heq⟩
      have IH := completeList_map_taskId es rest u2 l3 hrec
      obtain ⟨-, rfl⟩ : u2 = u ∧ t :: l3 = l₂ := by
        simpa [Prod.ext_iff] using heq
      simp [IH]

/-! ## Lemmas about the notification evaluators and operations -/

/-- The boolean inclusion test decodes to the spec's selection predicate:
not completed, and parsed time at most `deadline` hours after `now`
(negative differences included). -/
theorem dueSelect_iff (now : DateTime) (deadline : Int) (t : Task) :
    dueSelect now deadline t = true ↔
      t.completed = false ∧ ∃ d, fromisoformat t.time = some d ∧
        toMicros d - toMicros now ≤ deadline * 3600000000 := by
  cases h : fromisoformat t.time with
  | none => simp [dueSelect, h]
  | some d => simp [dueSelect, h, dueSoon, Bool.and_eq_true, Bool.not_eq_true']

/-- When every stored time parses, the `reminder` loop succeeds and keeps
exactly the tasks passing `dueSelect`, in storage order. -/
theorem reminderFilter_ok (now : DateTime) (deadline : Int) :
    ∀ tasks : List Task, (∀ t ∈ tasks, (fromisoformat t.time).isSome) →
      reminderFilter now deadline tasks =
        .ok (tasks.filter (dueSelect now deadline))
  | [], _ => by simp [reminderFilter]
  | t :: rest, h => by
    obtain ⟨d, hd⟩ := Option.isSome_iff_exists.mp (h t (by simp))
    have hrec := reminderFilter_ok now deadline rest (fun x hx => h x (by simp [hx]))
    by_cases hk : dueSoon now deadline t d = true
    · simp [reminderFilter, hd, hrec, List.filter_cons, dueSelect, hk]
    · simp [reminderFilter, hd, hrec, List.filter_cons, dueSelect, hk]

/-- Anatomy of a successful `add_task`: the input validated to the
returned task, no stored record collided with it, and the new store is
the old one with the task appended. -/
theorem addTask_ok (time : TimeValue) (event : String) (value : Int)
    (tasks : List Task) (t : Task) (s₂ : List Task)
    (h : addTask time event value tasks = (.ok t, s₂)) :
    validateTask time event value = .ok t ∧ s₂ = tasks ++ [t] ∧
      ∀ u ∈ tasks, ¬(u.time = t.time ∧ u.event = t.event) := by
  cases hv : validateTask time event value with
  | error e => simp [addTask, hv] at h
  | ok nt =>
    by_cases hany : tasks.any (matchesId nt.time nt.event) = true
    · simp [addTask, hv, hany] at h
    · rw [addTask] at h
      simp only [hv, if_neg hany] at h
      obtain ⟨h1, h2⟩ := Prod.mk.injEq .. |>.mp h
      obtain rfl : nt = t := by simpa using h1
      refine ⟨rfl, h2.symm, fun u hu hmatch => ?_⟩
      have := List.any_eq_true.not.mp hany
      push_neg at this
      exact absurd (matchesId_iff.mpr hmatch) (by simpa using this u hu)

/-! ## Claim theorems -/

/-- C9: `Store.load` never errors: a missing or unparseable backing file
yields the empty collection, and a parsed file yields its records in
storage order (`getTasks` is the total model of `_get_tasks`). -/
theorem getTasks_tolerant_read :
    getTasks .missing = [] ∧ getTasks .corrupt = [] ∧
      ∀ tasks, getTasks (.parsed tasks) = tasks :=
  ⟨rfl, rfl, fun _ => rfl⟩

/-- C3: `reward` sums `value` over exactly the `completed = true` tasks;
below the threshold it yields no payload, at or above it the payload
carries exactly that total (and the threshold). -/
theorem reward_threshold_payload (thresholdValue : Int) (inc : Bool) (tasks : List Task) :
    (((tasks.filter (fun t => t.completed)).map Task.value).sum < thresholdValue →
      reward thresholdValue inc tasks = none) ∧
    (thresholdValue ≤ ((tasks.filter (fun t => t.completed)).map Task.value).sum →
      ∃ p, reward thresholdValue inc tasks = some p ∧
        p.total = ((tasks.filter (fun t => t.completed)).map Task.value).sum ∧
        p.threshold = thresholdValue) := by
  constructor
  · intro h
    simp [reward, h]
  · intro h
    simp only [reward, if_neg (not_lt.mpr h)]
    exact ⟨_, rfl, rfl, rfl⟩

/-- C3 witness: with one completed task of value 3, threshold 4 yields no
payload and threshold 3 yields a payload with total 3. -/
theorem reward_threshold_payload_witness :
    reward 4 true [⟨"2023-06-16T12:00:00", "Lunch", 3, true⟩] = none ∧
    ∃ p, reward 3 true [⟨"2023-06-16T12:00:00", "Lunch", 3, true⟩] = some p ∧
      p.total = 3 ∧ p.threshold = 3 :=
  ⟨(reward_threshold_payload 4 true [⟨"2023-06-16T12:00:00", "Lunch", 3, true⟩]).1
      (by decide),
   (reward_threshold_payload 3 true [⟨"2023-06-16T12:00:00", "Lunch", 3, true⟩]).2
      (by decide)⟩

/-- C7: on a store containing a task with the looked-up identity,
`update_task` replaces only that first matching task's `value`; its
`completed` flag, its identity fields and its position survive, and every
other task is untouched. -/
theorem updateTask_frame (time : TimeValue) (event : String) (value : Int)
    (pre post : List Task) (t vt : Task)
    (hv : validateTask time event value = .ok vt)
    (ht : t.time = vt.time) (he : t.event = vt.event)
    (hpre : ∀ x ∈ pre, ¬(x.time = vt.time ∧ x.event = vt.event)) :
    updateTask time event value (pre ++ t :: post) =
      (.ok { t with value := value }, pre ++ { t with value := value } :: post) ∧
    ({ t with value := value }).completed = t.completed ∧
    ({ t with value := value }).time = t.time ∧
    ({ t with value := value }).event = t.event := by
  have hsplit := updateList_split vt.time vt.event value pre t post hpre ht he
  exact ⟨by simp only [updateTask, hv, hsplit], rfl, rfl, rfl⟩

/-- C7 witness: updating the value of a completed task keeps its
`completed = true` flag, position and neighbours. -/
theorem updateTask_frame_witness :
    updateTask (.str "2023-06-16T12:00:00") "Lunch" 7
        [⟨"2023-06-15T09:00:00", "Morning meeting", 5, false⟩,
         ⟨"2023-06-16T12:00:00", "Lunch", 3, true⟩] =
      (.ok ⟨"2023-06-16T12:00:00", "Lunch", 7, true⟩,
        [⟨"2023-06-15T09:00:00", "Morning meeting", 5, false⟩,
         ⟨"2023-06-16T12:00:00", "Lunch", 7, true⟩]) :=
  (updateTask_frame (.str "2023-06-16T12:00:00") "Lunch" 7
    [⟨"2023-06-15T09:00:00", "Morning meeting", 5, false⟩] []
    ⟨"2023-06-16T12:00:00", "Lunch", 3, true⟩
    ⟨"2023-06-16T12:00:00", "Lunch", 7, false⟩
    (by decide) (by decide) (by decide) (by decide)).1

/-- C4: a domain error from `add_task`, `update_task`, `remove_task` or
`complete` leaves the stored collection exactly as it was (nothing is
written), and a second `add_task` with the same `(time, event)` pair fails
with the duplicate error while the store keeps the first call's value. -/
theorem domain_error_unchanged (time : TimeValue) (event : String)
    (value value2 : Int) (tasks : List Task) :
    (∀ e, (addTask time event value tasks).1 = .error e →
      (addTask time event value tasks).2 = tasks) ∧
    (∀ e, (updateTask time event value tasks).1 = .error e →
      (updateTask time event value tasks).2 = tasks) ∧
    (∀ e, (removeTask time event tasks).1 = .error e →
      (removeTask time event tasks).2 = tasks) ∧
    (∀ e, (completeTask event tasks).1 = .error e →
      (completeTask event tasks).2 = tasks) ∧
    (∀ t s₂, addTask time event value tasks = (.ok t, s₂) →
      addTask time event value2 s₂ =
        (.error (.duplicateTask t.time t.event), s₂) ∧ t ∈ s₂ ∧ t.value = value) := by
  refine ⟨?_, ?_, ?_, ?_, ?_⟩
  · intro e he
    cases hv : validateTask time event value with
    | error e2 => simp [addTask, hv]
    | ok nt =>
      by_cases hany : tasks.any (matchesId nt.time nt.event) = true
      · simp [addTask, hv, hany]
      · simp [addTask, hv, hany] at he
  · intro e he
    cases hv : validateTask time event value with
    | error e2 => simp [updateTask, hv]
    | ok v =>
      cases hu : updateList v.time v.event value tasks with
      | none => simp [updateTask, hv, hu]
      | some p => simp [updateTask, hv, hu] at he
  · intro e he
    cases hr : removeList (normTime time) event tasks with
    | none => simp [removeTask, hr]
    | some p => simp [removeTask, hr] at he
  · intro e he
    cases hc : completeList event tasks with
    | none => simp [completeTask, hc]
    | some p => simp [completeTask, hc] at he
  · intro t s₂ hadd
    obtain ⟨hv, hs, -⟩ := addTask_ok time event value tasks t s₂ hadd
    have hv2 := validateTask_value_irrel time event value value2 t hv
    have hval := (validateTask_ok time event value t hv).1
    have hmem : t ∈ s₂ := by simp [hs]
    have hany : s₂.any (matchesId t.time t.event) = true :=
      List.any_eq_true.mpr ⟨t, hmem, matchesId_iff.mpr ⟨rfl, rfl⟩⟩
    refine ⟨?_, hmem, by simp [hval]⟩
    simp only [addTask, hv2]
    simp only [show ({ t with value := value2 } : Task).time = t.time from rfl,
      show ({ t with value := value2 } : Task).event = t.event from rfl, hany]
    simp

/-- C4 witness: a duplicate second add fails and keeps the first value;
an update of a missing task leaves the empty store empty. -/
theorem domain_error_unchanged_witness :
    addTask (.str "2023-06-16T12:00:00") "Lunch" 9
        [⟨"2023-06-16T12:00:00", "Lunch", 3, false⟩] =
      (.error (.duplicateTask "2023-06-16T12:00:00" "Lunch"),
        [⟨"2023-06-16T12:00:00", "Lunch", 3, false⟩]) ∧
    (updateTask (.str "2023-06-16T12:00:00") "Lunch" 9 ([] : List Task)).2 = [] :=
  ⟨((domain_error_unchanged (.str "2023-06-16T12:00:00") "Lunch" 3 9 []).2.2.2.2
      ⟨"2023-06-16T12:00:00", "Lunch", 3, false⟩
      [⟨"2023-06-16T12:00:00", "Lunch", 3, false⟩] (by decide)).1,
   (domain_error_unchanged (.str "2023-06-16T12:00:00") "Lunch" 9 9 []).2.1
      (.notFound "2023-06-16T12:00:00" "Lunch") (by decide)⟩

/-- C5: if all `(time, event)` identities in the store are pairwise
distinct, they remain pairwise distinct after any of `add_task`,
`update_task`, `remove_task` or `complete`. -/
theorem uniqueIds_preserved (time : TimeValue) (event : String) (value : Int)
    (tasks : List Task) (h : UniqueIds tasks) :
    UniqueIds (addTask time event value tasks).2 ∧
    UniqueIds (updateTask time event value tasks).2 ∧
    UniqueIds (removeTask time event tasks).2 ∧
    UniqueIds (completeTask event tasks).2 := by
  refine ⟨?_, ?_, ?_, ?_⟩
  · cases hv : validateTask time event value with
    | error e => simpa [addTask, hv] using h
    | ok nt =>
      by_cases hany : tasks.any (matchesId nt.time nt.event) = true
      · simpa [addTask, hv, hany] using h
      · have hnotin : taskId nt ∉ tasks.map taskId := by
          intro hin
          obtain ⟨u, hu, hid⟩ := List.mem_map.mp hin
          simp only [taskId, Prod.mk.injEq] at hid
          exact hany (List.any_eq_true.mpr ⟨u, hu, matchesId_iff.mpr ⟨hid.1, hid.2⟩⟩)
        simp only [addTask, hv, if_neg hany]
        unfold UniqueIds at h ⊢
        rw [List.map_append, List.map_singleton]
        exact h.append (List.nodup_singleton _)
          (fun a ha hb => by simp at hb; exact hnotin (hb ▸ ha))
  · cases hv : validateTask time event value with
    | error e => simpa [updateTask, hv] using h
    | ok v =>
      cases hu : updateList v.time v.event value tasks with
      | none => simpa [updateTask, hv, hu] using h
      | some p =>
        obtain ⟨u, l₂⟩ := p
        have hmap := updateList_map_taskId v.time v.event value tasks u l₂ hu
        simp only [updateTask, hv, hu]
        unfold UniqueIds at h ⊢
        rw [hmap]
        exact h
  · cases hr : removeList (normTime time) event tasks with
    | none => simpa [removeTask, hr] using h
    | some p =>
      obtain ⟨r, l₂⟩ := p
      have hsub := removeList_sublist (normTime time) event tasks r l₂ hr
      simp only [removeTask, hr]
      exact List.Nodup.sublist (List.Sublist.map taskId hsub) h
  · cases hc : completeList event tasks with
    | none => simpa [completeTask, hc] using h
    | some p =>
      obtain ⟨u, l₂⟩ := p
      have hmap := completeList_map_taskId event tasks u l₂ hc
      simp only [completeTask, hc]
      unfold UniqueIds at h ⊢
      rw [hmap]
      exact h

/-- C5 witness: adding a fresh task to a store with distinct identities
keeps the identities distinct. -/
theorem uniqueIds_preserved_witness :
    UniqueIds (addTask (.str "2023-06-16T12:00:00") "Lunch" 3
      [⟨"2023-06-15T09:00:00", "Morning meeting", 5, false⟩]).2 :=
  (uniqueIds_preserved (.str "2023-06-16T12:00:00") "Lunch" 3
    [⟨"2023-06-15T09:00:00", "Morning meeting", 5, false⟩]
    (by unfold UniqueIds; decide)).1

/-- C1: on a store with no record of the same identity, a valid `add_task`
returns the created task, appends exactly it at the end of storage order,
its fields are the normalized ones with `completed = false`, and any
subsequent `list_tasks` contains exactly one record of that identity. -/
theorem addTask_creates_normalized (time : TimeValue) (event : String) (value : Int)
    (tasks : List Task) (t : Task)
    (hv : validateTask time event value = .ok t)
    (hno : ∀ u ∈ tasks, ¬(u.time = t.time ∧ u.event = t.event)) :
    addTask time event value tasks = (.ok t, tasks ++ [t]) ∧
    t.time = normTime time ∧ t.event = pyStrip event ∧
    t.value = value ∧ t.completed = false ∧
    ∀ orderBy r, listTasks orderBy (tasks ++ [t]) = .ok r →
      (r.filter (matchesId t.time t.event)).length = 1 := by
  have hany : tasks.any (matchesId t.time t.event) = false := by
    rw [List.any_eq_false]
    intro u hu hm
    exact hno u hu (matchesId_iff.mp hm)
  have hval := (validateTask_ok time event value t hv).1
  refine ⟨?_, by simp [hval], by simp [hval], by simp [hval], by simp [hval], ?_⟩
  · simp only [addTask, hv, hany]
    simp
  · intro orderBy r hr
    have hperm : r.Perm (tasks ++ [t]) := by
      by_cases h1 : orderBy = "time"
      · subst h1
        simp only [listTasks, if_pos rfl] at hr
        obtain rfl : r = (tasks ++ [t]).mergeSort (fun a b => a.time ≤ b.time) := by
          simpa using hr.symm
        exact List.mergeSort_perm _ _
      · by_cases h2 : orderBy = "value"
        · subst h2
          simp only [listTasks, if_true] at hr
          obtain rfl : r = (tasks ++ [t]).mergeSort (fun a b => b.value ≤ a.value) := by
            simpa using hr.symm
          exact List.mergeSort_perm _ _
        · simp [listTasks, h1, h2] at hr
    rw [(hperm.filter _).length_eq, List.filter_append]
    have hnil : tasks.filter (matchesId t.time t.event) = [] := by
      rw [List.filter_eq_nil_iff]
      intro u hu hm
      exact hno u hu (matchesId_iff.mp hm)
    rw [hnil]
    simp [matchesId]

/-- C1 witness: adding `(2023-06-16T12:00:00, " Lunch ", 3)` to a
one-task store appends the task with the event stripped and
`completed = false`. -/
theorem addTask_creates_normalized_witness :
    addTask (.str "2023-06-16T12:00:00") " Lunch " 3
        [⟨"2023-06-15T09:00:00", "Morning meeting", 5, false⟩] =
      (.ok ⟨"2023-06-16T12:00:00", "Lunch", 3, false⟩,
        [⟨"2023-06-15T09:00:00", "Morning meeting", 5, false⟩,
         ⟨"2023-06-16T12:00:00", "Lunch", 3, false⟩]) :=
  (addTask_creates_normalized (.str "2023-06-16T12:00:00") " Lunch " 3
    [⟨"2023-06-15T09:00:00", "Morning meeting", 5, false⟩]
    ⟨"2023-06-16T12:00:00", "Lunch", 3, false⟩ (by decide) (by decide)).1

/-- C8: `remove_task` with a present key deletes exactly the first match,
shrinking the store by one with the remaining order preserved (and, under
the identity invariant, no record with that key remains); with an absent
key it fails with the not-found error and writes nothing; the `time`
argument is normalized (`datetime` → ISO text, text passed through
unvalidated). -/
theorem removeTask_spec (time : TimeValue) (event : String) (tasks : List Task) :
    (∀ pre t post, tasks = pre ++ t :: post →
      (∀ x ∈ pre, ¬(x.time = normTime time ∧ x.event = event)) →
      t.time = normTime time → t.event = event →
      removeTask time event tasks = (.ok t, pre ++ post) ∧
      (pre ++ post).length + 1 = tasks.length ∧
      (UniqueIds tasks →
        ∀ x ∈ pre ++ post, ¬(x.time = normTime time ∧ x.event = event))) ∧
    ((∀ x ∈ tasks, ¬(x.time = normTime time ∧ x.event = event)) →
      removeTask time event tasks = (.error (.notFound (normTime time) event), tasks)) := by
  constructor
  · rintro pre t post rfl hpre ht he
    have hsplit := removeList_split (normTime time) event pre t post hpre ht he
    refine ⟨by simp only [removeTask, hsplit],
      by simp only [List.length_append, List.length_cons]; omega, ?_⟩
    intro hu x hx hmatch
    unfold UniqueIds at hu
    rw [List.map_append, List.map_cons] at hu
    have hmid := List.nodup_middle.mp hu
    have hnotin : taskId t ∉ pre.map taskId ++ post.map taskId :=
      (List.nodup_cons.mp hmid).1
    have hxid : taskId x = taskId t := by
      simp only [taskId, hmatch.1, hmatch.2, ht, he]
    have hxin : taskId x ∈ pre.map taskId ++ post.map taskId := by
      rw [← List.map_append]
      exact List.mem_map_of_mem taskId hx
    exact hnotin (hxid ▸ hxin)
  · intro hall
    have hnone := (removeList_eq_none (normTime time) event tasks).mpr hall
    simp only [removeTask, hnone]

/-- C8 witness: removing a present key deletes exactly that record and
keeps the rest; removing an absent key fails with not-found and leaves
the store as it was. -/
theorem removeTask_spec_witness :
    removeTask (.str "2023-06-16T12:00:00") "Lunch"
        [⟨"2023-06-15T09:00:00", "Morning meeting", 5, false⟩,
         ⟨"2023-06-16T12:00:00", "Lunch", 3, false⟩] =
      (.ok ⟨"2023-06-16T12:00:00", "Lunch", 3, false⟩,
        [⟨"2023-06-15T09:00:00", "Morning meeting", 5, false⟩]) ∧
    removeTask (.str "2023-06-17T00:00:00") "Dinner"
        [⟨"2023-06-15T09:00:00", "Morning meeting", 5, false⟩] =
      (.error (.notFound "2023-06-17T00:00:00" "Dinner"),
        [⟨"2023-06-15T09:00:00", "Morning meeting", 5, false⟩]) :=
  ⟨((removeTask_spec (.str "2023-06-16T12:00:00") "Lunch"
      [⟨"2023-06-15T09:00:00", "Morning meeting", 5, false⟩,
       ⟨"2023-06-16T12:00:00", "Lunch", 3, false⟩]).1
      [⟨"2023-06-15T09:00:00", "Morning meeting", 5, false⟩]
      ⟨"2023-06-16T12:00:00", "Lunch", 3, false⟩ []
      rfl (by decide) (by decide) (by decide)).1,
   (removeTask_spec (.str "2023-06-17T00:00:00") "Dinner"
      [⟨"2023-06-15T09:00:00", "Morning meeting", 5, false⟩]).2 (by decide)⟩

/-- C10: `add_task` stores the event stripped while `remove_task` and
`complete` compare the event verbatim, so a task created with an event
that carries leading/trailing whitespace is not found by `remove_task` or
`complete` called with that same untrimmed event: both fail with the
not-found error and write nothing. -/
theorem untrimmed_event_not_found (time : TimeValue) (event : String) (value : Int)
    (tasks : List Task) (t : Task) (s₂ : List Task)
    (hadd : addTask time event value tasks = (.ok t, s₂))
    (hws : pyStrip event ≠ event)
    (hno : ∀ u ∈ tasks, u.event ≠ event) :
    removeTask time event s₂ = (.error (.notFound (normTime time) event), s₂) ∧
    completeTask event s₂ = (.error (.notFound "" event), s₂) := by
  obtain ⟨hv, hs, -⟩ := addTask_ok time event value tasks t s₂ hadd
  subst hs
  have hte : t.event = pyStrip event := by
    simp [(validateTask_ok time event value t hv).1]
  have hall2 : ∀ x ∈ tasks ++ [t], x.event ≠ event := by
    intro x hx hev
    rcases List.mem_append.mp hx with hx | hx
    · exact hno x hx hev
    · rw [List.mem_singleton] at hx
      subst hx
      rw [hte] at hev
      exact hws hev
  have hall : ∀ x ∈ tasks ++ [t], ¬(x.time = normTime time ∧ x.event = event) :=
    fun x hx hm => hall2 x hx hm.2
  constructor
  · simp only [removeTask, (removeList_eq_none (normTime time) event _).mpr hall]
  · simp only [completeTask, (completeList_eq_none event _).mpr hall2]

/-- C10 witness: after adding with event `" Lunch "` (stored stripped as
`"Lunch"`), removing and completing with `" Lunch "` both fail with the
not-found error. -/
theorem untrimmed_event_not_found_witness :
    removeTask (.str "2023-06-16T12:00:00") " Lunch "
        [⟨"2023-06-16T12:00:00", "Lunch", 3, false⟩] =
      (.error (.notFound "2023-06-16T12:00:00" " Lunch "),
        [⟨"2023-06-16T12:00:00", "Lunch", 3, false⟩]) ∧
    completeTask " Lunch " [⟨"2023-06-16T12:00:00", "Lunch", 3, false⟩] =
      (.error (.notFound "" " Lunch "),
        [⟨"2023-06-16T12:00:00", "Lunch", 3, false⟩]) :=
  untrimmed_event_not_found (.str "2023-06-16T12:00:00") " Lunch " 3 []
    ⟨"2023-06-16T12:00:00", "Lunch", 3, false⟩
    [⟨"2023-06-16T12:00:00", "Lunch", 3, false⟩]
    (by decide) (by decide) (by decide)

/-- C2: when every stored time parses, `reminder` yields no payload iff no
incomplete task lies within the window, and a yielded payload contains a
task iff it is stored, incomplete, and its parsed time minus `now` is at
most `deadline` hours — past times (negative differences) included, and
completed tasks never. -/
theorem reminder_selects_dueSoon (now : DateTime) (deadline : Int) (rank : String)
    (tasks : List Task) (hp : ∀ t ∈ tasks, (fromisoformat t.time).isSome) :
    (reminder now deadline rank tasks = .ok none ↔
      ∀ t ∈ tasks, ¬(t.completed = false ∧ ∃ d, fromisoformat t.time = some d ∧
        toMicros d - toMicros now ≤ deadline * 3600000000)) ∧
    (∀ l, reminder now deadline rank tasks = .ok (some l) →
      ∀ t, t ∈ l ↔ t ∈ tasks ∧ t.completed = false ∧
        ∃ d, fromisoformat t.time = some d ∧
          toMicros d - toMicros now ≤ deadline * 3600000000) := by
  have hf := reminderFilter_ok now deadline tasks hp
  by_cases hempty : tasks.filter (dueSelect now deadline) = []
  · have hred : reminder now deadline rank tasks = .ok none := by
      simp [reminder, hf, hempty]
    constructor
    · rw [hred]
      constructor
      · intro _ t ht hpred
        exact (List.filter_eq_nil_iff.mp hempty t ht)
          ((dueSelect_iff now deadline t).mpr hpred)
      · intro _
        rfl
    · intro l hl
      rw [hred] at hl
      simp at hl
  · have hred : ∃ le, reminder now deadline rank tasks =
        .ok (some ((tasks.filter (dueSelect now deadline)).mergeSort le)) := by
      by_cases hrank : rank = "value"
      · exact ⟨fun a b => decide (a.value ≤ b.value),
          by simp [reminder, hf, hempty, hrank]⟩
      · exact ⟨fun a b => decide (parsedMicros a ≤ parsedMicros b),
          by simp [reminder, hf, hempty, hrank]⟩
    obtain ⟨le, hle⟩ := hred
    constructor
    · rw [hle]
      constructor
      · intro h
        simp at h
      · intro hall
        exfalso
        obtain ⟨t, ht⟩ := List.exists_mem_of_ne_nil _ hempty
        have hm := List.mem_filter.mp ht
        exact hall t hm.1 ((dueSelect_iff now deadline t).mp hm.2)
    · intro l hl t
      rw [hle] at hl
      obtain rfl : l = (tasks.filter (dueSelect now deadline)).mergeSort le := by
        simpa using hl.symm
      rw [List.mem_mergeSort, List.mem_filter, dueSelect_iff]

/-- C2 witness: a single completed task is never selected, so `reminder`
yields no payload even though the task is inside the window. -/
theorem reminder_selects_dueSoon_witness :
    reminder ⟨2023, 6, 16, 9, 0, 0, 0⟩ 24 "time"
      [⟨"2023-06-16T12:00:00", "Lunch", 3, true⟩] = .ok none :=
  (reminder_selects_dueSoon ⟨2023, 6, 16, 9, 0, 0, 0⟩ 24 "time"
    [⟨"2023-06-16T12:00:00", "Lunch", 3, true⟩] (by decide)).1.mpr
    (by
      intro t ht hpred
      rw [List.mem_singleton] at ht
      subst ht
      exact absurd hpred.1 (by decide))

/-- C6: `list_tasks` returns a stably sorted copy — ascending in the time
string for `"time"`, descending in `value` for `"value"` (ties keep their
original relative order in both) — and any other key fails with the
invalid-sort-key error; the store itself is never written. -/
theorem listTasks_sort_spec (tasks : List Task) (orderBy : String) :
    (∃ r, listTasks "time" tasks = .ok r ∧ r.Perm tasks ∧
      r.Pairwise (fun a b => a.time ≤ b.time) ∧
      ∀ a b : Task, List.Sublist [a, b] tasks → a.time ≤ b.time →
        List.Sublist [a, b] r) ∧
    (∃ r, listTasks "value" tasks = .ok r ∧ r.Perm tasks ∧
      r.Pairwise (fun a b => b.value ≤ a.value) ∧
      ∀ a b : Task, List.Sublist [a, b] tasks → b.value ≤ a.value →
        List.Sublist [a, b] r) ∧
    (orderBy ≠ "time" → orderBy ≠ "value" →
      listTasks orderBy tasks = .error .invalidSortKey) := by
  have transT : ∀ a b c : Task,
      decide (a.time ≤ b.time) = true → decide (b.time ≤ c.time) = true →
      decide (a.time ≤ c.time) = true := by
    intro a b c hab hbc
    simp only [decide_eq_true_eq] at *
    exact le_trans hab hbc
  have totalT : ∀ a b : Task,
      (decide (a.time ≤ b.time) || decide (b.time ≤ a.time)) = true := by
    intro a b
    simp only [Bool.or_eq_true, decide_eq_true_eq]
    exact le_total _ _
  have transV : ∀ a b c : Task,
      decide (b.value ≤ a.value) = true → decide (c.value ≤ b.value) = true →
      decide (c.value ≤ a.value) = true := by
    intro a b c hab hbc
    simp only [decide_eq_true_eq] at *
    exact le_trans hbc hab
  have totalV : ∀ a b : Task,
      (decide (b.value ≤ a.value) || decide (a.value ≤ b.value)) = true := by
    intro a b
    simp only [Bool.or_eq_true, decide_eq_true_eq]
    exact le_total _ _
  refine ⟨⟨tasks.mergeSort (fun a b => a.time ≤ b.time), by simp [listTasks],
      List.mergeSort_perm _ _, ?_, ?_⟩,
    ⟨tasks.mergeSort (fun a b => b.value ≤ a.value), by simp [listTasks],
      List.mergeSort_perm _ _, ?_, ?_⟩, ?_⟩
  · exact (List.sorted_mergeSort transT totalT tasks).imp
      (fun h => by simpa using h)
  · intro a b hsub hle
    exact List.pair_sublist_mergeSort transT totalT (by simpa using hle) hsub
  · exact (List.sorted_mergeSort transV totalV tasks).imp
      (fun h => by simpa using h)
  · intro a b hsub hle
    exact List.pair_sublist_mergeSort transV totalV (by simpa using hle) hsub
  · intro h1 h2
    simp [listTasks, h1, h2]

/-- C6 witness: an unrecognized sort key is rejected. -/
theorem listTasks_sort_spec_witness :
    listTasks "points" [⟨"2023-06-15T09:00:00", "Morning meeting", 5, false⟩] =
      .error .invalidSortKey :=
  (listTasks_sort_spec [⟨"2023-06-15T09:00:00", "Morning meeting", 5, false⟩]
    "points").2.2 (by decide) (by decide)

end ZephyrTask
